import Mathlib

/-!
Verification of the llm-meter core against its design specification.

The development shallowly embeds the TypeScript source:
* `src/text.ts` — `stableStringify` / `hashRequest` (canonical hasher);
* `src/store.ts` — `BoundedMemoryCache` (LRU + optional TTL);
* `src/rates.ts` — pricing database, `pricingFor`, `estimateCostUsd`;
* `src/meter.ts` — `LlmMeter` usage ledger (`record`, `noteCacheHit`, `noteCacheMiss`);
* `src/spend.ts` / `src/als.ts` — `SpendLimit` (`checkLimits`, `run`) over an
  explicit current-scope/state monad modelling `AsyncLocalStorage`.

JavaScript numbers that carry money are embedded as exact rationals (`ℚ`);
token counts are naturals. JS `Map` objects are embedded as insertion-ordered
association lists (`Map` iteration order is insertion order; `set` on an
existing key keeps its position, so an in-place assoc-list update is exact).
-/

/-! ## Canonical hasher: JS value domain

`stableStringify` in `src/text.ts` recursively serializes an arbitrary value.
We embed the domain that cache requests inhabit: `null`, booleans, finite
integer-valued numbers (rendered in decimal by `String(value)`), strings,
bigints, `undefined`, functions (carrying an identity that the serializer
ignores), symbols (carrying their description), arrays, and plain objects.
The `JSEntries` of an object are its fields in insertion order; a list whose
keys are pairwise distinct models a real JS object. -/

mutual
inductive JSValue where
  | null
  | bool (b : Bool)
  | num (n : Int)
  | str (s : String)
  | bigint (n : Int)
  | undef
  | fn (id : Nat)
  | sym (desc : String)
  | arr (elems : JSList)
  | obj (entries : JSEntries)
deriving DecidableEq
inductive JSList where
  | nil
  | cons (head : JSValue) (tail : JSList)
deriving DecidableEq
inductive JSEntries where
  | nil
  | cons (key : String) (val : JSValue) (tail : JSEntries)
deriving DecidableEq
end

/-- UTF-16 code units of a character (JS strings are UTF-16; the default
`Array.prototype.sort` comparator compares strings by UTF-16 code units). -/
def encodeUtf16Char (c : Char) : List Nat :=
  if c.toNat < 65536 then [c.toNat]
  else [55296 + (c.toNat - 65536) / 1024, 56320 + (c.toNat - 65536) % 1024]

def utf16Units : List Char → List Nat
  | [] => []
  | c :: t => encodeUtf16Char c ++ utf16Units t

/-- UTF-16 code-unit sequence of a string, the sort key used by `keys.sort()`. -/
def utf16Key (s : String) : List Nat := utf16Units s.data

/-- Lexicographic strict order on code-unit sequences: the order in which the
default JS sort comparator places strings. -/
def natListLt : List Nat → List Nat → Bool
  | [], [] => false
  | [], _ :: _ => true
  | _ :: _, [] => false
  | a :: as, b :: bs => if a < b then true else if b < a then false else natListLt as bs

/-- Comparison used when sorting an object's rendered entries by key. -/
def keyLt (p q : String × String) : Bool := natListLt (utf16Key p.1) (utf16Key q.1)

/-- Insertion step of `keys.sort()`: an element is placed before the first
strictly greater element (ties keep their original order, as in the stable
ECMAScript sort). -/
def insertSortedPair (p : String × String) :
    List (String × String) → List (String × String)
  | [] => [p]
  | q :: t => if keyLt p q then p :: q :: t else q :: insertSortedPair p t

/-- `Object.keys(value).sort()`, applied to the (key, rendered value) pairs. -/
def sortPairs : List (String × String) → List (String × String)
  | [] => []
  | p :: t => insertSortedPair p (sortPairs t)

/-- One hexadecimal digit (lowercase), used by `\uXXXX` escapes and hex digests. -/
def hexDigitChar (n : Nat) : Char :=
  if n < 10 then Char.ofNat (48 + n) else Char.ofNat (87 + n)

/-- Four-digit hexadecimal rendering for `\uXXXX` escapes. -/
def hex4 (n : Nat) : String :=
  String.mk ((List.range 4).map (fun i => hexDigitChar (n / 16 ^ (3 - i) % 16)))

/-- `JSON.stringify` escaping of a single character. -/
def escapeChar (c : Char) : String :=
  if c = '"' then "\\\""
  else if c = '\\' then "\\\\"
  else if c = '\x08' then "\\b"
  else if c = '\x09' then "\\t"
  else if c = '\x0a' then "\\n"
  else if c = '\x0c' then "\\f"
  else if c = '\x0d' then "\\r"
  else if c.toNat < 32 then "\\u" ++ hex4 c.toNat
  else String.singleton c

/-- `JSON.stringify` applied to a string value. -/
def jsonQuote (s : String) : String :=
  "\"" ++ String.join (s.data.map escapeChar) ++ "\""

/-- `array.join(",")`. -/
def joinComma : List String → String
  | [] => ""
  | [s] => s
  | s :: t => s ++ "," ++ joinComma t

/-! `stableStringify` from `src/text.ts`:

```ts
if (value === null) return "null";
if (typeof value === "string") return JSON.stringify(value);
if (typeof value === "number") return Number.isFinite(value) ? String(value) : ...;
if (typeof value === "boolean") return value ? "true" : "false";
if (typeof value === "bigint") return JSON.stringify(value.toString());
if (typeof value === "undefined") return JSON.stringify("undefined");
if (typeof value === "function") return JSON.stringify("[Function]");
if (typeof value === "symbol") return JSON.stringify(String(value));
if (Array.isArray(value)) return `[${value.map(v => stableStringify(v)).join(",")}]`;
if (isPlainObject(value)) {
  const keys = Object.keys(value).sort();
  const entries = keys.map(k => `${JSON.stringify(k)}:${stableStringify(value[k])}`);
  return `{${entries.join(",")}}`;
}
```

For an object we render each field first and then sort the (key, rendered
value) pairs by key; on a real JS object (whose keys are unique) this is
exactly `Object.keys(value).sort()` followed by indexing, since sorting the
pairs by key and sorting the keys agree when no key repeats.
`String(Symbol(desc))` is `"Symbol(" + desc + ")"`. -/
mutual
def stableStringify : JSValue → String
  | .null => "null"
  | .bool b => if b then "true" else "false"
  | .num n => toString n
  | .str s => jsonQuote s
  | .bigint n => jsonQuote (toString n)
  | .undef => jsonQuote "undefined"
  | .fn _ => jsonQuote "[Function]"
  | .sym d => jsonQuote ("Symbol(" ++ d ++ ")")
  | .arr xs => "[" ++ joinComma (renderList xs) ++ "]"
  | .obj l =>
    "\x7b" ++ joinComma ((sortPairs (renderEntries l)).map
      (fun p => jsonQuote p.1 ++ ":" ++ p.2)) ++ "\x7d"
def renderList : JSList → List String
  | .nil => []
  | .cons v t => stableStringify v :: renderList t
def renderEntries : JSEntries → List (String × String)
  | .nil => []
  | .cons k v t => (k, stableStringify v) :: renderEntries t
end

/-! ## SHA-256 (crypto.createHash("sha256") … digest("hex"))

Words are naturals reduced mod 2^32. -/

def w32 (n : Nat) : Nat := n % 4294967296

def rotr32 (x n : Nat) : Nat := w32 (x / 2 ^ n + x % 2 ^ n * 2 ^ (32 - n))

def shr32 (x n : Nat) : Nat := x / 2 ^ n

def sha256K : List Nat :=
  [1116352408, 1899447441, 3049323471, 3921009573, 961987163,
   1508970993, 2453635748, 2870763221, 3624381080, 310598401,
   607225278, 1426881987, 1925078388, 2162078206, 2614888103,
   3248222580, 3835390401, 4022224774, 264347078, 604807628,
   770255983, 1249150122, 1555081692, 1996064986, 2554220882,
   2821834349, 2952996808, 3210313671, 3336571891, 3584528711,
   113926993, 338241895, 666307205, 773529912, 1294757372,
   1396182291, 1695183700, 1986661051, 2177026350, 2456956037,
   2730485921, 2820302411, 3259730800, 3345764771, 3516065817,
   3600352804, 4094571909, 275423344, 430227734, 506948616,
   659060556, 883997877, 958139571, 1322822218, 1537002063,
   1747873779, 1955562222, 2024104815, 2227730452, 2361852424,
   2428436474, 2756734187, 3204031479, 3329325298]

/-- The eight initial hash words (fractional parts of the square roots of the
first eight primes). -/
def sha256H0 : List Nat :=
  [1779033703, 3144134277, 1013904242, 2773480762, 1359893119,
   2600822924, 528734635, 1541459225]

/-- Pad a byte message to a multiple of 64 bytes: `0x80`, zeros, then the
bit length as 8 big-endian bytes. -/
def sha256Pad (msg : List Nat) : List Nat :=
  let padZeros := (64 + 55 - msg.length % 64) % 64
  msg ++ [128] ++ List.replicate padZeros 0
    ++ (List.range 8).map (fun i => msg.length * 8 / 2 ^ (8 * (7 - i)) % 256)

/-- First 16 words of a 64-byte block (big-endian). -/
def sha256Words (block : List Nat) : List Nat :=
  (List.range 16).map (fun i =>
    block.getD (4 * i) 0 * 16777216 + block.getD (4 * i + 1) 0 * 65536
      + block.getD (4 * i + 2) 0 * 256 + block.getD (4 * i + 3) 0)

/-- Extend 16 message-schedule words to 64. -/
def sha256Schedule (w16 : List Nat) : List Nat :=
  (List.range 48).foldl (fun w _ =>
    let i := w.length
    let x15 := w.getD (i - 15) 0
    let x2 := w.getD (i - 2) 0
    let s0 := rotr32 x15 7 ^^^ rotr32 x15 18 ^^^ shr32 x15 3
    let s1 := rotr32 x2 17 ^^^ rotr32 x2 19 ^^^ shr32 x2 10
    w ++ [w32 (w.getD (i - 16) 0 + s0 + w.getD (i - 7) 0 + s1)]) w16

/-- Compression function: 64 rounds, then add the block digest to the state. -/
def sha256Compress (hs : List Nat) (block : List Nat) : List Nat :=
  let w := sha256Schedule (sha256Words block)
  let final := (List.range 64).foldl (fun (st : List Nat) i =>
    match st with
    | [a, b, c, d, e, f, g, hh] =>
      let s1 := rotr32 e 6 ^^^ rotr32 e 11 ^^^ rotr32 e 25
      let ch := (e &&& f) ^^^ ((4294967295 ^^^ e) &&& g)
      let temp1 := w32 (hh + s1 + ch + sha256K.getD i 0 + w.getD i 0)
      let s0 := rotr32 a 2 ^^^ rotr32 a 13 ^^^ rotr32 a 22
      let maj := (a &&& b) ^^^ (a &&& c) ^^^ (b &&& c)
      let temp2 := w32 (s0 + maj)
      [w32 (temp1 + temp2), a, b, c, w32 (d + temp1), e, f, g]
    | other => other) hs
  (hs.zip final).map (fun p => w32 (p.1 + p.2))

/-- Eight lowercase hex digits of a 32-bit word. -/
def toHex8 (x : Nat) : String :=
  String.mk ((List.range 8).map (fun i => hexDigitChar (x / 16 ^ (7 - i) % 16)))

/-- `createHash("sha256").update(bytes).digest("hex")`. -/
def sha256Hex (msg : List Nat) : String :=
  let padded := sha256Pad msg
  let final := (List.range (padded.length / 64)).foldl
    (fun hs i => sha256Compress hs ((padded.drop (64 * i)).take 64)) sha256H0
  String.join (final.map toHex8)

/-- UTF-8 bytes of a string (`hash.update(serialized)` hashes the UTF-8 bytes). -/
def strBytes (s : String) : List Nat := s.toUTF8.toList.map (fun b => b.toNat)

/-- `hashRequest` from `src/text.ts`: SHA-256 hex digest of the canonical
serialization of the request object. -/
def hashRequest (data : JSEntries) : String :=
  sha256Hex (strBytes (stableStringify (.obj data)))

/-! Every cache backend's `makeKey` delegates to `hashRequest`. -/

/-- `MemoryCache.makeKey` / `BoundedMemoryCache.makeKey` / `DiskCache.makeKey`
(`src/store.ts`) — all three just call `hashRequest(request)`. -/
def makeKey (request : JSEntries) : String := hashRequest request

/-! ## Well-formed values and deep equality up to key order -/

/-- Does the entry list bind the key `k`? (`Map`-style membership on an
object's fields.) -/
def hasEntryKey (k : String) : JSEntries → Bool
  | .nil => false
  | .cons k1 _ t => (k1 == k) || hasEntryKey k t

/-- Keys of an entry list are pairwise distinct — true of every real JS
object, whose property names are unique. -/
def keysDistinct : JSEntries → Bool
  | .nil => true
  | .cons k _ t => !hasEntryKey k t && keysDistinct t

/-! A value is well-formed (`wfJS`) when every object inside it has
pairwise-distinct keys: exactly the values representable as actual
JavaScript data. -/

mutual
def wfJS : JSValue → Bool
  | .arr xs => wfList xs
  | .obj l => keysDistinct l && wfEntries l
  | _ => true
def wfList : JSList → Bool
  | .nil => true
  | .cons v t => wfJS v && wfList t
def wfEntries : JSEntries → Bool
  | .nil => true
  | .cons _ v t => wfJS v && wfEntries t
end

/-- Permutation of an object's field list (the same fields inserted in a
different order). -/
inductive EntriesPerm : JSEntries → JSEntries → Prop where
  | nil : EntriesPerm .nil .nil
  | cons (k : String) (v : JSValue) {t u : JSEntries} :
      EntriesPerm t u → EntriesPerm (.cons k v t) (.cons k v u)
  | swap (k1 : String) (v1 : JSValue) (k2 : String) (v2 : JSValue)
      (t : JSEntries) :
      EntriesPerm (.cons k1 v1 (.cons k2 v2 t)) (.cons k2 v2 (.cons k1 v1 t))
  | trans {a b c : JSEntries} : EntriesPerm a b → EntriesPerm b c → EntriesPerm a c

/-! `EquivJS` is structural (deep) equality of requests up to the insertion
order of object fields. Leaves must agree exactly, except that two functions
are related regardless of identity (the serializer cannot distinguish them)
and two symbols are related exactly when their descriptions agree. An object
is related to any reordering of an object with pointwise-related fields. -/

mutual
inductive EquivJS : JSValue → JSValue → Prop where
  | null : EquivJS .null .null
  | bool (b : Bool) : EquivJS (.bool b) (.bool b)
  | num (n : Int) : EquivJS (.num n) (.num n)
  | str (s : String) : EquivJS (.str s) (.str s)
  | bigint (n : Int) : EquivJS (.bigint n) (.bigint n)
  | undef : EquivJS .undef .undef
  | fn (i j : Nat) : EquivJS (.fn i) (.fn j)
  | sym (d : String) : EquivJS (.sym d) (.sym d)
  | arr {xs ys : JSList} : EquivList xs ys → EquivJS (.arr xs) (.arr ys)
  | obj {xs : JSEntries} (mid ys : JSEntries) :
      EquivEntries xs mid → EntriesPerm mid ys → EquivJS (.obj xs) (.obj ys)
inductive EquivList : JSList → JSList → Prop where
  | nil : EquivList .nil .nil
  | cons {v w : JSValue} {t u : JSList} :
      EquivJS v w → EquivList t u → EquivList (.cons v t) (.cons w u)
inductive EquivEntries : JSEntries → JSEntries → Prop where
  | nil : EquivEntries .nil .nil
  | cons (k : String) {v w : JSValue} {t u : JSEntries} :
      EquivJS v w → EquivEntries t u → EquivEntries (.cons k v t) (.cons k w u)
end

/-! ## Order lemmas for the sort comparator -/

theorem natListLt_irrefl : ∀ l : List Nat, natListLt l l = false
  | [] => rfl
  | a :: as => by
    show (if a < a then true else if a < a then false else natListLt as as) = false
    rw [if_neg (Nat.lt_irrefl a), if_neg (Nat.lt_irrefl a)]
    exact natListLt_irrefl as

theorem natListLt_asymm : ∀ {a b : List Nat},
    natListLt a b = true → natListLt b a = false
  | [], [], h => by simp [natListLt] at h
  | [], _ :: _, _ => rfl
  | _ :: _, [], h => by simp [natListLt] at h
  | a :: as, b :: bs, h => by
    show (if b < a then true else if a < b then false else natListLt bs as) = false
    replace h : (if a < b then true else if b < a then false else natListLt as bs) = true := h
    by_cases hab : a < b
    · rw [if_neg (by omega : ¬ b < a), if_pos hab]
    · rw [if_neg hab] at h
      by_cases hba : b < a
      · rw [if_pos hba] at h; simp at h
      · rw [if_neg hba] at h
        rw [if_neg hba, if_neg hab]
        exact natListLt_asymm h

theorem natListLt_trans : ∀ {a b c : List Nat},
    natListLt a b = true → natListLt b c = true → natListLt a c = true
  | [], _, _ :: _, _, _ => rfl
  | [], _ :: _, [], _, h2 => by simp [natListLt] at h2
  | [], [], [], h1, _ => by simp [natListLt] at h1
  | _ :: _, [], _, h1, _ => by simp [natListLt] at h1
  | _ :: _, _ :: _, [], _, h2 => by simp [natListLt] at h2
  | a :: as, b :: bs, c :: cs, h1, h2 => by
    replace h1 : (if a < b then true else if b < a then false else natListLt as bs) = true := h1
    replace h2 : (if b < c then true else if c < b then false else natListLt bs cs) = true := h2
    show (if a < c then true else if c < a then false else natListLt as cs) = true
    by_cases hab : a < b
    · by_cases hbc : b < c
      · rw [if_pos (by omega : a < c)]
      · rw [if_neg hbc] at h2
        by_cases hcb : c < b
        · rw [if_pos hcb] at h2; simp at h2
        · have hbceq : b = c := by omega
          subst hbceq
          rw [if_pos hab]
    · rw [if_neg hab] at h1
      by_cases hba : b < a
      · rw [if_pos hba] at h1; simp at h1
      · rw [if_neg hba] at h1
        have habeq : a = b := by omega
        subst habeq
        by_cases hac : a < c
        · rw [if_pos hac]
        · rw [if_neg hac] at h2 ⊢
          by_cases hca : c < a
          · rw [if_pos hca] at h2; simp at h2
          · rw [if_neg hca] at h2 ⊢
            exact natListLt_trans h1 h2

theorem natListLt_total_eq : ∀ {a b : List Nat},
    natListLt a b = false → natListLt b a = false → a = b
  | [], [], _, _ => rfl
  | [], _ :: _, h1, _ => by simp [natListLt] at h1
  | _ :: _, [], _, h2 => by simp [natListLt] at h2
  | a :: as, b :: bs, h1, h2 => by
    replace h1 : (if a < b then true else if b < a then false else natListLt as bs) = false := h1
    replace h2 : (if b < a then true else if a < b then false else natListLt bs as) = false := h2
    by_cases hab : a < b
    · rw [if_pos hab] at h1; simp at h1
    · by_cases hba : b < a
      · rw [if_pos hba] at h2; simp at h2
      · rw [if_neg hab, if_neg hba] at h1
        have habeq : a = b := by omega
        subst habeq
        rw [natListLt_total_eq h1 (by rw [if_neg hba, if_neg hab] at h2; exact h2)]

/-! ## Verified properties of the key sort -/

theorem insertSortedPair_perm (p : String × String) :
    ∀ l, (insertSortedPair p l).Perm (p :: l)
  | [] => List.Perm.refl _
  | q :: t => by
    show (if keyLt p q then p :: q :: t else q :: insertSortedPair p t).Perm (p :: q :: t)
    by_cases h : keyLt p q = true
    · rw [if_pos h]
    · rw [if_neg h]
      exact ((insertSortedPair_perm p t).cons q).trans (List.Perm.swap p q t)

theorem sortPairs_perm : ∀ l, (sortPairs l).Perm l
  | [] => List.Perm.refl _
  | p :: t => (insertSortedPair_perm p (sortPairs t)).trans ((sortPairs_perm t).cons p)

theorem bool_eq_false {b : Bool} (h : ¬ b = true) : b = false := by
  cases b
  · rfl
  · exact absurd rfl h

theorem insertSortedPair_sorted (p : String × String) :
    ∀ {l}, l.Pairwise (fun x y => keyLt y x = false) →
      (insertSortedPair p l).Pairwise (fun x y => keyLt y x = false)
  | [], _ => by simp [insertSortedPair]
  | q :: t, h => by
    obtain ⟨hq, ht⟩ := List.pairwise_cons.mp h
    show (if keyLt p q then p :: q :: t else q :: insertSortedPair p t).Pairwise _
    by_cases hpq : keyLt p q = true
    · rw [if_pos hpq]
      refine List.pairwise_cons.mpr ⟨?_, h⟩
      intro x hx
      rcases List.mem_cons.mp hx with hx | hx
      · subst hx
        exact natListLt_asymm hpq
      · have hxq := hq x hx
        cases hxp : keyLt x p
        · rfl
        · exfalso
          have hT : keyLt x q = true := natListLt_trans hxp hpq
          rw [hT] at hxq
          exact Bool.noConfusion hxq
    · rw [if_neg hpq]
      refine List.pairwise_cons.mpr ⟨?_, insertSortedPair_sorted p ht⟩
      intro x hx
      rcases List.mem_cons.mp ((insertSortedPair_perm p t).mem_iff.mp hx) with hx | hx
      · subst hx
        exact bool_eq_false hpq
      · exact hq x hx

theorem sortPairs_sorted : ∀ l, (sortPairs l).Pairwise (fun x y => keyLt y x = false)
  | [] => List.Pairwise.nil
  | p :: t => insertSortedPair_sorted p (sortPairs_sorted t)

theorem pairwise_combine {α : Type} {R S T : α → α → Prop}
    (hRS : ∀ a b, R a b → S a b → T a b) :
    ∀ {l : List α}, l.Pairwise R → l.Pairwise S → l.Pairwise T
  | [], _, _ => List.Pairwise.nil
  | a :: t, h1, h2 => by
    obtain ⟨h1a, h1t⟩ := List.pairwise_cons.mp h1
    obtain ⟨h2a, h2t⟩ := List.pairwise_cons.mp h2
    exact List.pairwise_cons.mpr
      ⟨fun x hx => hRS a x (h1a x hx) (h2a x hx), pairwise_combine hRS h1t h2t⟩

/-- Non-strict sortedness plus pairwise-distinct keys gives strict sortedness. -/
theorem pairwise_strict {l : List (String × String)}
    (hs : l.Pairwise (fun x y => keyLt y x = false))
    (hd : l.Pairwise (fun x y => utf16Key x.1 ≠ utf16Key y.1)) :
    l.Pairwise (fun x y => keyLt x y = true) := by
  refine pairwise_combine ?_ hs hd
  intro a b h1 h2
  cases hab : keyLt a b
  · exact absurd (natListLt_total_eq hab h1) h2
  · rfl

/-- Two strictly sorted permutations of the same list are equal. -/
theorem strictSorted_perm_eq : ∀ {l1 l2 : List (String × String)}, l1.Perm l2 →
    l1.Pairwise (fun x y => keyLt x y = true) →
    l2.Pairwise (fun x y => keyLt x y = true) → l1 = l2
  | [], l2, h, _, _ => h.nil_eq
  | a :: t1, [], h, _, _ => by simp at h
  | a :: t1, b :: t2, h, s1, s2 => by
    by_cases hab : a = b
    · subst hab
      rw [strictSorted_perm_eq h.cons_inv (List.pairwise_cons.mp s1).2
        (List.pairwise_cons.mp s2).2]
    · exfalso
      have ha : a ∈ t2 := by
        rcases List.mem_cons.mp (h.mem_iff.mp (List.mem_cons_self a t1)) with hx | hx
        · exact absurd hx hab
        · exact hx
      have hb : b ∈ t1 := by
        rcases List.mem_cons.mp (h.mem_iff.mpr (List.mem_cons_self b t2)) with hx | hx
        · exact absurd hx.symm hab
        · exact hx
      have h1 := (List.pairwise_cons.mp s1).1 b hb
      have h2 := (List.pairwise_cons.mp s2).1 a ha
      have hF : keyLt b a = false := natListLt_asymm h1
      rw [hF] at h2
      exact Bool.noConfusion h2

/-- Sorting two permutations of a duplicate-free entry list gives the same
result: this is what makes `keys.sort()` insensitive to insertion order. -/
theorem sortPairs_eq_of_perm {l1 l2 : List (String × String)} (h : l1.Perm l2)
    (hd : l1.Pairwise (fun x y => utf16Key x.1 ≠ utf16Key y.1)) :
    sortPairs l1 = sortPairs l2 := by
  have hd2 : l2.Pairwise (fun x y => utf16Key x.1 ≠ utf16Key y.1) :=
    (h.pairwise_iff (fun hne => Ne.symm hne)).mp hd
  have hperm : (sortPairs l1).Perm (sortPairs l2) :=
    ((sortPairs_perm l1).trans h).trans (sortPairs_perm l2).symm
  refine strictSorted_perm_eq hperm
    (pairwise_strict (sortPairs_sorted l1) ?_) (pairwise_strict (sortPairs_sorted l2) ?_)
  · exact ((sortPairs_perm l1).pairwise_iff (fun hne => Ne.symm hne)).mpr hd
  · exact ((sortPairs_perm l2).pairwise_iff (fun hne => Ne.symm hne)).mpr hd2

/-! ## Injectivity of the UTF-16 sort key -/

theorem char_valid_nat (c : Char) :
    c.toNat < 0xd800 ∨ (0xdfff < c.toNat ∧ c.toNat < 0x110000) := by
  have h := c.valid
  unfold UInt32.isValidChar Nat.isValidChar at h
  exact h

/-- A BMP code unit can never equal the high surrogate of an astral character:
`Char` validity excludes the surrogate range. -/
theorem surrogate_clash {c c1 : Char} (h1 : c.toNat < 65536) (h2 : ¬ c1.toNat < 65536)
    (hh : c.toNat = 55296 + (c1.toNat - 65536) / 1024) : False := by
  have v := char_valid_nat c
  have v1 := char_valid_nat c1
  rcases v with hv | ⟨hv1, hv2⟩ <;> rcases v1 with hw | ⟨hw1, hw2⟩ <;> omega

theorem utf16Units_injective : ∀ {l1 l2 : List Char},
    utf16Units l1 = utf16Units l2 → l1 = l2
  | [], [], _ => rfl
  | [], c :: t, h => by
    exfalso
    rw [utf16Units, utf16Units, encodeUtf16Char] at h
    split at h <;> simp at h
  | c :: t, [], h => by
    exfalso
    rw [utf16Units, utf16Units, encodeUtf16Char] at h
    split at h <;> simp at h
  | c :: t, c1 :: t1, h => by
    rw [utf16Units, utf16Units, encodeUtf16Char, encodeUtf16Char] at h
    by_cases h1 : c.toNat < 65536 <;> by_cases h2 : c1.toNat < 65536
    · rw [if_pos h1, if_pos h2] at h
      simp only [List.cons_append, List.nil_append, List.cons.injEq] at h
      obtain ⟨hh, ht⟩ := h
      have hc : c = c1 := Char.ext (UInt32.ext hh)
      subst hc
      rw [utf16Units_injective ht]
    · rw [if_pos h1, if_neg h2] at h
      simp only [List.cons_append, List.nil_append, List.cons.injEq] at h
      exact absurd (surrogate_clash h1 h2 h.1) not_false
    · rw [if_neg h1, if_pos h2] at h
      simp only [List.cons_append, List.nil_append, List.cons.injEq] at h
      exact absurd (surrogate_clash h2 h1 h.1.symm) not_false
    · rw [if_neg h1, if_neg h2] at h
      simp only [List.cons_append, List.nil_append, List.cons.injEq] at h
      obtain ⟨hh, hh2, ht⟩ := h
      have hn : c.toNat = c1.toNat := by omega
      have hc : c = c1 := Char.ext (UInt32.ext hn)
      subst hc
      rw [utf16Units_injective ht]

theorem utf16Key_injective : ∀ {s1 s2 : String}, utf16Key s1 = utf16Key s2 → s1 = s2
  | ⟨l1⟩, ⟨l2⟩, h => congrArg String.mk (utf16Units_injective h)

/-! ## Keys of rendered entries -/

theorem renderEntries_key_mem : ∀ {t : JSEntries} {p : String × String},
    p ∈ renderEntries t → hasEntryKey p.1 t = true
  | .cons k v u, p, hp => by
    simp only [renderEntries, List.mem_cons] at hp
    rcases hp with hp | hp
    · subst hp
      simp [hasEntryKey]
    · simp only [hasEntryKey, Bool.or_eq_true]
      exact Or.inr (renderEntries_key_mem hp)

theorem keysDistinct_render : ∀ {l : JSEntries}, keysDistinct l = true →
    (renderEntries l).Pairwise (fun p q => utf16Key p.1 ≠ utf16Key q.1)
  | .nil, _ => List.Pairwise.nil
  | .cons k v t, h => by
    have h' : hasEntryKey k t = false ∧ keysDistinct t = true := by
      simpa [keysDistinct, Bool.and_eq_true] using h
    refine List.pairwise_cons.mpr ⟨?_, keysDistinct_render h'.2⟩
    intro p hp hkey
    have hpk : p.1 = k := (utf16Key_injective hkey).symm
    have hmem := renderEntries_key_mem hp
    rw [hpk] at hmem
    rw [h'.1] at hmem
    exact Bool.noConfusion hmem

/-- Reordering an object's fields permutes its rendered entry list. -/
theorem entriesPerm_render_perm {a b : JSEntries} (h : EntriesPerm a b) :
    (renderEntries a).Perm (renderEntries b) := by
  induction h with
  | nil => exact List.Perm.refl _
  | cons k v _ ih => exact ih.cons _
  | swap k1 v1 k2 v2 t => exact List.Perm.swap _ _ _
  | trans _ _ ih1 ih2 => exact ih1.trans ih2

/-! ## The serializer is invariant under deep equality up to key order -/

mutual
theorem equivJS_stringify : ∀ (a b : JSValue), EquivJS a b → wfJS a = true →
    stableStringify a = stableStringify b
  | .null, _, h, _ => by cases h; rfl
  | .bool _, _, h, _ => by cases h; rfl
  | .num _, _, h, _ => by cases h; rfl
  | .str _, _, h, _ => by cases h; rfl
  | .bigint _, _, h, _ => by cases h; rfl
  | .undef, _, h, _ => by cases h; rfl
  | .fn _, _, h, _ => by cases h; rfl
  | .sym _, _, h, _ => by cases h; rfl
  | .arr xs, _, h, hw => by
    cases h with
    | arr hl =>
      show "[" ++ joinComma (renderList xs) ++ "]" = _
      rw [equivList_render xs _ hl (show wfList xs = true from hw)]
      rfl
  | .obj l, _, h, hw => by
    cases h with
    | obj mid ys h1 h2 =>
      have hw' : keysDistinct l = true ∧ wfEntries l = true := by
        simpa [Bool.and_eq_true] using (show (keysDistinct l && wfEntries l) = true from hw)
      have hren : renderEntries l = renderEntries mid :=
        equivEntries_render l mid h1 hw'.2
      have hperm : (renderEntries l).Perm (renderEntries ys) := by
        rw [hren]
        exact entriesPerm_render_perm h2
      have hsort : sortPairs (renderEntries l) = sortPairs (renderEntries ys) :=
        sortPairs_eq_of_perm hperm (keysDistinct_render hw'.1)
      show "\x7b" ++ joinComma ((sortPairs (renderEntries l)).map
          (fun p => jsonQuote p.1 ++ ":" ++ p.2)) ++ "\x7d" = _
      rw [hsort]
      rfl
theorem equivList_render : ∀ (xs ys : JSList), EquivList xs ys → wfList xs = true →
    renderList xs = renderList ys
  | .nil, _, h, _ => by cases h; rfl
  | .cons v t, _, h, hw => by
    cases h with
    | cons hv ht =>
      have hw' : wfJS v = true ∧ wfList t = true := by
        simpa [Bool.and_eq_true] using (show (wfJS v && wfList t) = true from hw)
      show stableStringify v :: renderList t = _
      rw [equivJS_stringify v _ hv hw'.1, equivList_render t _ ht hw'.2]
      rfl
theorem equivEntries_render : ∀ (xs ys : JSEntries), EquivEntries xs ys →
    wfEntries xs = true → renderEntries xs = renderEntries ys
  | .nil, _, h, _ => by cases h; rfl
  | .cons k v t, _, h, hw => by
    cases h with
    | cons _ hv ht =>
      have hw' : wfJS v = true ∧ wfEntries t = true := by
        simpa [Bool.and_eq_true] using (show (wfJS v && wfEntries t) = true from hw)
      show (k, stableStringify v) :: renderEntries t = _
      rw [equivJS_stringify v _ hv hw'.1, equivEntries_render t _ ht hw'.2]
      rfl
end

/-! ## Claim C1 -/

/-- C1: for every pair of requests that are structurally (deep-)equal but
whose object fields were inserted in different orders — and in fact up to the
coarser relation `EquivJS`, which additionally ignores function identity —
the key derivation used by `makeKey` of every backend returns the same
string: `hashRequest r1 = hashRequest r2`. The well-formedness hypothesis
says that `r1` denotes an actual JS object (object keys are pairwise
distinct at every level), which is automatic for real requests. -/
theorem hashRequest_key_order_invariant (r1 r2 : JSEntries)
    (hwf : wfJS (.obj r1) = true) (h : EquivJS (.obj r1) (.obj r2)) :
    hashRequest r1 = hashRequest r2 :=
  congrArg (fun s => sha256Hex (strBytes s)) (equivJS_stringify _ _ h hwf)

/-- The request `{b: 2, a: 1}`. -/
def c1Request1 : JSEntries := .cons "b" (.num 2) (.cons "a" (.num 1) .nil)

/-- The request `{a: 1, b: 2}`: the same object with the fields inserted in
the other order. -/
def c1Request2 : JSEntries := .cons "a" (.num 1) (.cons "b" (.num 2) .nil)

/-- C1 witness: `{b: 2, a: 1}` and `{a: 1, b: 2}` are well-formed, deep-equal
up to key order, and hash to the same cache key. -/
theorem hashRequest_key_order_invariant_witness :
    wfJS (.obj c1Request1) = true ∧ EquivJS (.obj c1Request1) (.obj c1Request2)
      ∧ hashRequest c1Request1 = hashRequest c1Request2 := by
  have hequiv : EquivJS (.obj c1Request1) (.obj c1Request2) :=
    .obj c1Request1 c1Request2
      (.cons "b" (.num 2) (.cons "a" (.num 1) .nil))
      (.swap "b" (.num 2) "a" (.num 1) .nil)
  exact ⟨by decide, hequiv, hashRequest_key_order_invariant _ _ (by decide) hequiv⟩

/-! ## Claim C7 -/

/-- C7 counterexample: symbols are NOT rendered as one fixed sentinel string.
`stableStringify` renders a symbol as `JSON.stringify(String(value))`, and
`String(Symbol("a")) = "Symbol(a)"` differs from `String(Symbol("b")) =
"Symbol(b)"`; consequently two requests differing only in which symbol they
contain serialize differently (so they do distinguish the requests). -/
theorem symbol_rendering_not_fixed :
    stableStringify (.sym "a") ≠ stableStringify (.sym "b")
      ∧ stableStringify (.obj (.cons "x" (.sym "a") .nil))
          ≠ stableStringify (.obj (.cons "x" (.sym "b") .nil)) := by
  exact ⟨by decide, by decide⟩

/-- C7 (amended): functions render as the fixed sentinel `"[Function]"`, so
two requests differing only in which function they contain derive the same
cache key; symbols render as `JSON.stringify(String(value))`, i.e. as
`"Symbol(<description>)"`, which ignores symbol identity but retains the
description — only requests whose symbols share a description derive the
same key. -/
theorem fn_sym_sentinel_rendering :
    (∀ i : Nat, stableStringify (.fn i) = jsonQuote "[Function]")
      ∧ (∀ d : String, stableStringify (.sym d) = jsonQuote ("Symbol(" ++ d ++ ")"))
      ∧ (∀ (k : String) (t : JSEntries) (i j : Nat),
          hashRequest (.cons k (.fn i) t) = hashRequest (.cons k (.fn j) t)) :=
  ⟨fun _ => rfl, fun _ => rfl, fun _ _ _ _ => rfl⟩

/-! ## Claim C10 -/

/-- C10: structurally distinct requests can derive the same cache key: the
serializer renders `undefined` exactly like the string `"undefined"` (and any
function exactly like the string `"[Function]"`), so `{a: undefined}` and
`{a: "undefined"}` produce the same byte string and collide under
`hashRequest`. -/
theorem undefined_string_collision :
    ((JSEntries.cons "a" .undef .nil) ≠ JSEntries.cons "a" (.str "undefined") .nil)
      ∧ stableStringify (.obj (.cons "a" .undef .nil))
          = stableStringify (.obj (.cons "a" (.str "undefined") .nil))
      ∧ hashRequest (.cons "a" .undef .nil)
          = hashRequest (.cons "a" (.str "undefined") .nil)
      ∧ (∀ i : Nat, stableStringify (.fn i) = stableStringify (.str "[Function]"))
      ∧ hashRequest (.cons "a" (.fn 0) .nil)
          = hashRequest (.cons "a" (.str "[Function]") .nil) :=
  ⟨by decide, rfl, rfl, fun _ => rfl, rfl⟩

/-! ## BoundedMemoryCache (`src/store.ts`)

A JS `Map` is embedded as an insertion-ordered association list: the head is
the oldest (first-inserted) binding; `map.set` on a fresh key appends at the
end; `map.delete` removes the key's binding; `map.keys().next().value` is the
head's key. `Date.now()` is passed in explicitly as `now`. `ttlMs` is an
optional (finite) integer; the source ignores a non-finite `ttlMs`, which an
integer cannot be. -/

structure CacheEntry (T : Type) where
  value : T
  expiresAt : Option Int
deriving DecidableEq

structure BoundedMemoryCache (T : Type) where
  maxEntries : Nat
  ttlMs : Option Int
  cache : List (String × CacheEntry T)
deriving DecidableEq

/-- The constructor: `this.maxEntries = Math.max(1, Math.floor(opts.maxEntries))`,
`this.ttlMs = opts.ttlMs`, empty map. `opts.maxEntries` is an arbitrary JS
number, embedded as a rational. -/
def mkBoundedMemoryCache (T : Type) (maxEntries : ℚ) (ttlMs : Option Int) :
    BoundedMemoryCache T :=
  { maxEntries := (max 1 ⌊maxEntries⌋).toNat, ttlMs := ttlMs, cache := [] }

/-- `map.get(key)` on the association list (first — and only — binding). -/
def lookupEntry {T : Type} (key : String) :
    List (String × CacheEntry T) → Option (CacheEntry T)
  | [] => none
  | (k, e) :: t => if k == key then some e else lookupEntry key t

/-- `map.has(key)`. -/
def hasCacheKey {T : Type} (key : String) (l : List (String × CacheEntry T)) : Bool :=
  (lookupEntry key l).isSome

/-- `map.delete(key)`. -/
def eraseEntry {T : Type} (key : String) :
    List (String × CacheEntry T) → List (String × CacheEntry T)
  | [] => []
  | (k, e) :: t => if k == key then t else (k, e) :: eraseEntry key t

/-- `entry.expiresAt !== undefined && Date.now() > entry.expiresAt`. -/
def entryExpired {T : Type} (e : CacheEntry T) (now : Int) : Bool :=
  match e.expiresAt with
  | some exp => exp < now
  | none => false

/-- `BoundedMemoryCache.get`: absent keys report absent; an expired entry is
deleted and reported absent; otherwise the entry is moved to the
most-recently-used position (delete + re-insert, since `Map` keeps insertion
order) and its value returned. Returns the result together with the updated
cache. -/
def BoundedMemoryCache.get {T : Type} (c : BoundedMemoryCache T) (key : String)
    (now : Int) : Option T × BoundedMemoryCache T :=
  match lookupEntry key c.cache with
  | none => (none, c)
  | some entry =>
    if entryExpired entry now then
      (none, { c with cache := eraseEntry key c.cache })
    else
      (some entry.value, { c with cache := eraseEntry key c.cache ++ [(key, entry)] })

/-- The eviction loop of `BoundedMemoryCache.set`:
`while (size > maxEntries) delete the oldest key (or break when the map is
empty)`. Each iteration removes exactly one entry, so `fuel := size` bounds
the loop; the recursion is on the fuel only to keep the function structural. -/
def evictOldest {T : Type} : Nat → List (String × CacheEntry T) → Nat →
    List (String × CacheEntry T)
  | 0, l, _ => l
  | fuel + 1, l, maxEntries =>
    if maxEntries < l.length then evictOldest fuel l.tail maxEntries else l

/-- `BoundedMemoryCache.set`: compute `expiresAt = ttlMs ? now + ttlMs : none`,
delete any prior binding of the key, append the new entry as most recent,
then evict least-recently-used entries while the size exceeds `maxEntries`. -/
def BoundedMemoryCache.set {T : Type} (c : BoundedMemoryCache T) (key : String)
    (value : T) (now : Int) : BoundedMemoryCache T :=
  let expiresAt := c.ttlMs.map (fun ttl => now + ttl)
  let base := if hasCacheKey key c.cache then eraseEntry key c.cache else c.cache
  let inserted := base ++ [(key, { value := value, expiresAt := expiresAt })]
  { c with cache := evictOldest inserted.length inserted c.maxEntries }

/-- `BoundedMemoryCache.clear`. -/
def BoundedMemoryCache.clear {T : Type} (c : BoundedMemoryCache T) :
    BoundedMemoryCache T :=
  { c with cache := [] }

/-- The state after `set(a,1); set(b,2)` and the result of `get(a)` on a
`BoundedMemoryCache(maxEntries=2)` without TTL. -/
def c4AfterGet : Option Nat × BoundedMemoryCache Nat :=
  (((mkBoundedMemoryCache Nat 2 none).set "a" 1 0).set "b" 2 0).get "a" 0

/-- The state after the whole C4 scenario `set(a,1); set(b,2); get(a); set(c,3)`. -/
def c4Final : BoundedMemoryCache Nat := c4AfterGet.2.set "c" 3 0

/-- C4: on `maxEntries = 2` with no TTL, after `set(a,1); set(b,2); get(a);
set(c,3)` the entry `b` is gone while `a` and `c` survive — the successful
`get(a)` bumped `a`'s recency, so eviction is LRU rather than FIFO. -/
theorem lru_not_fifo_scenario :
    c4AfterGet.1 = some 1 ∧ (c4Final.get "b" 0).1 = none
      ∧ (c4Final.get "a" 0).1 = some 1 ∧ (c4Final.get "c" 0).1 = some 3 := by
  refine ⟨?_, ?_, ?_, ?_⟩ <;> decide

/-! ## Pricing database and errors (`src/rates.ts`, `src/errors.ts`)

`MeterError` embeds the error classes; each carries the payload fields of the
corresponding class (`CostLimitExceeded.currentCost/maxCost`,
`TokenCapExceeded.currentTokens/maxTokens`, `UnknownModelError`'s model named
in its message). Money is exact (`ℚ`). -/

inductive MeterError where
  | costLimitExceeded (currentCost maxCost : ℚ)
  | tokenCapExceeded (currentTokens maxTokens : Int)
  | unknownModel (model : String)
deriving DecidableEq

structure ModelPricing where
  inputPer1k : ℚ
  outputPer1k : ℚ
  provider : String
deriving DecidableEq

/-- The pricing table of `src/rates.ts` (February 2026), as an
insertion-ordered association list; `defineModel` can extend it. -/
def PRICING_DB : List (String × ModelPricing) :=
  [("gpt-4o", ⟨0.0025, 0.01, "openai"⟩),
   ("gpt-4o-mini", ⟨0.00015, 0.0006, "openai"⟩),
   ("gpt-4-turbo", ⟨0.01, 0.03, "openai"⟩),
   ("gpt-4", ⟨0.03, 0.06, "openai"⟩),
   ("gpt-3.5-turbo", ⟨0.0005, 0.0015, "openai"⟩),
   ("o1", ⟨0.015, 0.06, "openai"⟩),
   ("o1-mini", ⟨0.003, 0.012, "openai"⟩),
   ("o3-mini", ⟨0.0011, 0.0044, "openai"⟩),
   ("claude-opus-4-5", ⟨0.015, 0.075, "anthropic"⟩),
   ("claude-opus-4-5-20251101", ⟨0.015, 0.075, "anthropic"⟩),
   ("claude-sonnet-4-5", ⟨0.003, 0.015, "anthropic"⟩),
   ("claude-sonnet-4-5-20250929", ⟨0.003, 0.015, "anthropic"⟩),
   ("claude-haiku-4-5", ⟨0.0008, 0.004, "anthropic"⟩),
   ("claude-haiku-4-5-20251001", ⟨0.0008, 0.004, "anthropic"⟩),
   ("claude-3-5-sonnet-20241022", ⟨0.003, 0.015, "anthropic"⟩),
   ("claude-3-opus-20240229", ⟨0.015, 0.075, "anthropic"⟩),
   ("gemini-2.0-flash", ⟨0, 0, "google"⟩),
   ("gemini-2.0-flash-exp", ⟨0, 0, "google"⟩),
   ("gemini-1.5-pro", ⟨0.00125, 0.005, "google"⟩),
   ("gemini-1.5-flash", ⟨0.000075, 0.0003, "google"⟩)]

/-- `PRICING_DB[model]` lookup. -/
def lookupPricing (db : List (String × ModelPricing)) (model : String) :
    Option ModelPricing :=
  match db with
  | [] => none
  | (k, p) :: t => if k == model then some p else lookupPricing t model

/-- `defineModel(model, price)`: adds or replaces a pricing entry (the
`provider` defaults to "custom" at the call site). -/
def defineModel (db : List (String × ModelPricing)) (model : String)
    (price : ModelPricing) : List (String × ModelPricing) :=
  match db with
  | [] => [(model, price)]
  | (k, p) :: t =>
    if k == model then (k, price) :: t else (k, p) :: defineModel t model price

/-! `resolveModelPricingKey` (`src/rates.ts`): a model id missing from the
table is resolved by stripping a trailing `-YYYY-MM-DD` date suffix, then a
trailing `-YYYYMMDD` compact date suffix, then by progressively stripping
trailing `"-segment"` pieces until a priced id is found. -/

def isDigitChar (c : Char) : Bool := 48 ≤ c.toNat && c.toNat ≤ 57

/-- Does an 11-character tail match the end-anchored regex
dash d4 dash d2 dash d2 (a `-YYYY-MM-DD` date suffix)? -/
def dashDateSuffix : List Char → Bool
  | ['-', a, b, c, d, '-', e, f, '-', g, h] =>
    isDigitChar a && isDigitChar b && isDigitChar c && isDigitChar d
      && isDigitChar e && isDigitChar f && isDigitChar g && isDigitChar h
  | _ => false

/-- `model.replace` of the end-anchored dash-date regex by the empty string:
drop a trailing `-YYYY-MM-DD` suffix when present, else return the string
unchanged. -/
def stripDashDate (s : String) : String :=
  if dashDateSuffix (s.data.drop (s.data.length - 11)) then
    String.mk (s.data.take (s.data.length - 11))
  else s

/-- Does a 9-character tail match the end-anchored regex dash d8
(a `-YYYYMMDD` compact date suffix)? -/
def compactDateSuffix : List Char → Bool
  | ['-', a, b, c, d, e, f, g, h] =>
    isDigitChar a && isDigitChar b && isDigitChar c && isDigitChar d
      && isDigitChar e && isDigitChar f && isDigitChar g && isDigitChar h
  | _ => false

/-- `model.replace` of the end-anchored compact-date regex by the empty
string. -/
def stripCompactDate (s : String) : String :=
  if compactDateSuffix (s.data.drop (s.data.length - 9)) then
    String.mk (s.data.take (s.data.length - 9))
  else s

/-- `cur.slice(0, cur.lastIndexOf("-"))`: everything before the last dash. -/
def beforeLastDash (cs : List Char) : List Char :=
  ((cs.reverse.dropWhile (fun c => !(c == '-'))).drop 1).reverse

/-- The generic-fallback loop of `resolveModelPricingKey`:
`while (cur.includes("-")) \x7b cur = cur.slice(0, cur.lastIndexOf("-"));
if (cur in PRICING_DB) return cur; \x7d return undefined`. Each iteration
removes at least one character, so `fuel := cur.length` covers the loop. -/
def resolveLoop (db : List (String × ModelPricing)) :
    Nat → List Char → Option String
  | 0, _ => none
  | fuel + 1, cur =>
    if cur.any (fun c => c == '-') then
      let next := beforeLastDash cur
      if (lookupPricing db (String.mk next)).isSome then some (String.mk next)
      else resolveLoop db fuel next
    else none

/-- `resolveModelPricingKey(model)`: the id itself, or the id with a date
suffix stripped, or the longest dash-prefix with a pricing entry. -/
def resolveModelPricingKey (db : List (String × ModelPricing))
    (model : String) : Option String :=
  if (lookupPricing db model).isSome then some model
  else
    let s1 := stripDashDate model
    if (s1 != model) && (lookupPricing db s1).isSome then some s1
    else
      let s2 := stripCompactDate model
      if (s2 != model) && (lookupPricing db s2).isSome then some s2
      else resolveLoop db model.data.length model.data

/-- `pricingFor(model)`: resolve the pricing key, throwing `UnknownModelError`
when the model cannot be resolved. On success the source memoizes an alias
`PRICING_DB[model] = PRICING_DB[key]` for future lookups; the alias never
changes the result of any later resolution (the base key already resolves to
the same pricing), so the pure embedding returns the pricing alone. -/
def pricingFor (db : List (String × ModelPricing)) (model : String) :
    Except MeterError ModelPricing :=
  match resolveModelPricingKey db model with
  | none => .error (.unknownModel model)
  | some key =>
    match lookupPricing db key with
    | some p => .ok p
    | none => .error (.unknownModel model)

/-- `estimateCostUsd(model, inputTokens, outputTokens)`. -/
def estimateCostUsd (db : List (String × ModelPricing)) (model : String)
    (inputTokens outputTokens : Nat) : Except MeterError ℚ :=
  match pricingFor db model with
  | .error e => .error e
  | .ok price =>
    .ok ((inputTokens : ℚ) / 1000 * price.inputPer1k
      + (outputTokens : ℚ) / 1000 * price.outputPer1k)

/-! ## The usage ledger (`src/meter.ts`) -/

structure UsageCounter where
  tokens : Nat
  inputTokens : Nat
  outputTokens : Nat
  costUsd : ℚ
  calls : Nat
deriving DecidableEq

/-- `new UsageCounter()`: all counters start at zero. -/
def UsageCounter.empty : UsageCounter := ⟨0, 0, 0, 0, 0⟩

/-- `UsageCounter.add(other)`. -/
def UsageCounter.add (c other : UsageCounter) : UsageCounter :=
  { tokens := c.tokens + other.tokens,
    inputTokens := c.inputTokens + other.inputTokens,
    outputTokens := c.outputTokens + other.outputTokens,
    costUsd := c.costUsd + other.costUsd,
    calls := c.calls + other.calls }

structure CacheCounter where
  hitCount : Nat
  missCount : Nat
  usdSaved : ℚ
  tokensSaved : Nat
deriving DecidableEq

def CacheCounter.empty : CacheCounter := ⟨0, 0, 0, 0⟩

structure MeterEvent where
  model : String
  inputTokens : Nat
  outputTokens : Nat
  provider : String

/-- The mutable state of an `LlmMeter`: the global counter, the per-provider
counters (a `Map` in insertion order), and the cache-savings counters. -/
structure LlmMeter where
  usageState : UsageCounter
  usageByProviderState : List (String × UsageCounter)
  cacheStatsState : CacheCounter
deriving DecidableEq

def LlmMeter.empty : LlmMeter := ⟨.empty, [], .empty⟩

/-- `map.get(provider) ?? new UsageCounter()`, `existing.add(usage)`,
`map.set(provider, existing)` — updates the provider's counter in place, or
appends a fresh one. -/
def updateProvider (m : List (String × UsageCounter)) (provider : String)
    (usage : UsageCounter) : List (String × UsageCounter) :=
  match m with
  | [] => [(provider, UsageCounter.empty.add usage)]
  | (k, c) :: t =>
    if k == provider then (k, c.add usage) :: t
    else (k, c) :: updateProvider t provider usage

/-- `LlmMeter.record(params)`: cost estimation happens first and may throw
`UnknownModelError` (before any state is touched); otherwise the usage event
is folded into both the global counter and the provider's counter. The
trailing `getCurrentCapLike()?.checkLimits()` of the source is modelled in
the budget-scope section; it never mutates the ledger. The returned pair is
(state after the call, thrown error if any). -/
def LlmMeter.record (db : List (String × ModelPricing)) (s : LlmMeter)
    (e : MeterEvent) : LlmMeter × Option MeterError :=
  match estimateCostUsd db e.model e.inputTokens e.outputTokens with
  | .error err => (s, some err)
  | .ok cost =>
    let usage : UsageCounter :=
      { tokens := e.inputTokens + e.outputTokens,
        inputTokens := e.inputTokens,
        outputTokens := e.outputTokens,
        costUsd := cost,
        calls := 1 }
    ({ s with usageState := s.usageState.add usage,
              usageByProviderState :=
                updateProvider s.usageByProviderState e.provider usage },
     none)

/-- `LlmMeter.noteCacheHit(tokensSaved, usdSaved)`. -/
def LlmMeter.noteCacheHit (s : LlmMeter) (tokensSaved : Nat) (usdSaved : ℚ) :
    LlmMeter :=
  { s with cacheStatsState :=
      { s.cacheStatsState with
        hitCount := s.cacheStatsState.hitCount + 1,
        tokensSaved := s.cacheStatsState.tokensSaved + tokensSaved,
        usdSaved := s.cacheStatsState.usdSaved + usdSaved } }

/-- `LlmMeter.noteCacheMiss()`. -/
def LlmMeter.noteCacheMiss (s : LlmMeter) : LlmMeter :=
  { s with cacheStatsState :=
      { s.cacheStatsState with missCount := s.cacheStatsState.missCount + 1 } }

/-- `LlmMeter.clear()`. -/
def LlmMeter.clear (_ : LlmMeter) : LlmMeter := LlmMeter.empty

/-- `meter.summary` (the snapshot is an immutable copy; in the pure embedding
it is the counter itself). -/
def LlmMeter.summary (s : LlmMeter) : UsageCounter := s.usageState

/-- `meter.breakdown`. -/
def LlmMeter.breakdown (s : LlmMeter) : List (String × UsageCounter) :=
  s.usageByProviderState

/-- `meter.savings`. -/
def LlmMeter.savings (s : LlmMeter) : CacheCounter := s.cacheStatsState

/-! ## Claim C2 -/

def sumProviderTokens : List (String × UsageCounter) → Nat
  | [] => 0
  | (_, c) :: t => c.tokens + sumProviderTokens t

def sumProviderCalls : List (String × UsageCounter) → Nat
  | [] => 0
  | (_, c) :: t => c.calls + sumProviderCalls t

def sumProviderCost : List (String × UsageCounter) → ℚ
  | [] => 0
  | (_, c) :: t => c.costUsd + sumProviderCost t

theorem sumTokens_updateProvider : ∀ (m : List (String × UsageCounter))
    (p : String) (u : UsageCounter),
    sumProviderTokens (updateProvider m p u) = sumProviderTokens m + u.tokens
  | [], _, u => by
    simp [updateProvider, sumProviderTokens, UsageCounter.add, UsageCounter.empty]
  | (k, c) :: t, p, u => by
    show sumProviderTokens (if k == p then (k, c.add u) :: t
        else (k, c) :: updateProvider t p u) = _
    by_cases h : (k == p) = true
    · rw [if_pos h]
      show (c.add u).tokens + sumProviderTokens t = c.tokens + sumProviderTokens t + u.tokens
      show c.tokens + u.tokens + sumProviderTokens t = _
      omega
    · rw [if_neg h]
      show c.tokens + sumProviderTokens (updateProvider t p u) = _
      rw [sumTokens_updateProvider t p u]
      show _ = c.tokens + sumProviderTokens t + u.tokens
      omega

theorem sumCalls_updateProvider : ∀ (m : List (String × UsageCounter))
    (p : String) (u : UsageCounter),
    sumProviderCalls (updateProvider m p u) = sumProviderCalls m + u.calls
  | [], _, u => by
    simp [updateProvider, sumProviderCalls, UsageCounter.add, UsageCounter.empty]
  | (k, c) :: t, p, u => by
    show sumProviderCalls (if k == p then (k, c.add u) :: t
        else (k, c) :: updateProvider t p u) = _
    by_cases h : (k == p) = true
    · rw [if_pos h]
      show c.calls + u.calls + sumProviderCalls t = c.calls + sumProviderCalls t + u.calls
      omega
    · rw [if_neg h]
      show c.calls + sumProviderCalls (updateProvider t p u) = _
      rw [sumCalls_updateProvider t p u]
      show _ = c.calls + sumProviderCalls t + u.calls
      omega

theorem sumCost_updateProvider : ∀ (m : List (String × UsageCounter))
    (p : String) (u : UsageCounter),
    sumProviderCost (updateProvider m p u) = sumProviderCost m + u.costUsd
  | [], _, u => by
    simp [updateProvider, sumProviderCost, UsageCounter.add, UsageCounter.empty]
  | (k, c) :: t, p, u => by
    show sumProviderCost (if k == p then (k, c.add u) :: t
        else (k, c) :: updateProvider t p u) = _
    by_cases h : (k == p) = true
    · rw [if_pos h]
      show c.costUsd + u.costUsd + sumProviderCost t = c.costUsd + sumProviderCost t + u.costUsd
      ring
    · rw [if_neg h]
      show c.costUsd + sumProviderCost (updateProvider t p u) = _
      rw [sumCost_updateProvider t p u]
      show _ = c.costUsd + sumProviderCost t + u.costUsd
      ring

/-- The three C2 equalities bundled as one state predicate. -/
def LedgerBalanced (s : LlmMeter) : Prop :=
  s.usageState.tokens = sumProviderTokens s.usageByProviderState
    ∧ s.usageState.costUsd = sumProviderCost s.usageByProviderState
    ∧ s.usageState.calls = sumProviderCalls s.usageByProviderState

theorem record_preserves_balanced (db : List (String × ModelPricing))
    (s : LlmMeter) (e : MeterEvent) (h : LedgerBalanced s) :
    LedgerBalanced (LlmMeter.record db s e).1 := by
  obtain ⟨h1, h2, h3⟩ := h
  unfold LlmMeter.record
  cases estimateCostUsd db e.model e.inputTokens e.outputTokens with
  | error err => exact ⟨h1, h2, h3⟩
  | ok cost =>
    refine ⟨?_, ?_, ?_⟩
    · show s.usageState.tokens + (e.inputTokens + e.outputTokens)
        = sumProviderTokens (updateProvider s.usageByProviderState e.provider _)
      rw [sumTokens_updateProvider, h1]
    · show s.usageState.costUsd + cost
        = sumProviderCost (updateProvider s.usageByProviderState e.provider _)
      rw [sumCost_updateProvider, h2]
    · show s.usageState.calls + 1
        = sumProviderCalls (updateProvider s.usageByProviderState e.provider _)
      rw [sumCalls_updateProvider, h3]

/-- Folding a sequence of `record` calls from a given meter state (errors
leave the state untouched, as the thrown exception aborts before mutation). -/
def runEvents (db : List (String × ModelPricing)) (evs : List MeterEvent)
    (s : LlmMeter) : LlmMeter :=
  evs.foldl (fun s e => (LlmMeter.record db s e).1) s

theorem runEvents_preserves_balanced (db : List (String × ModelPricing)) :
    ∀ (evs : List MeterEvent) (s : LlmMeter), LedgerBalanced s →
      LedgerBalanced (runEvents db evs s)
  | [], _, h => h
  | e :: rest, s, h =>
    runEvents_preserves_balanced db rest (LlmMeter.record db s e).1
      (record_preserves_balanced db s e h)

/-- C2: for every pricing database and every sequence of `record` calls on a
fresh `LlmMeter`, the global counter equals the sum of the per-provider
counters field by field — `summary.tokens = Σ breakdown[p].tokens`, and
likewise for `costUsd` and `calls`; no `record` updates one side without the
other. -/
theorem ledger_global_equals_provider_sums (db : List (String × ModelPricing))
    (evs : List MeterEvent) :
    (runEvents db evs LlmMeter.empty).summary.tokens
        = sumProviderTokens (runEvents db evs LlmMeter.empty).breakdown
      ∧ (runEvents db evs LlmMeter.empty).summary.costUsd
        = sumProviderCost (runEvents db evs LlmMeter.empty).breakdown
      ∧ (runEvents db evs LlmMeter.empty).summary.calls
        = sumProviderCalls (runEvents db evs LlmMeter.empty).breakdown :=
  runEvents_preserves_balanced db evs LlmMeter.empty ⟨rfl, rfl, rfl⟩

/-! ## Claim C8 -/

/-- C8: `noteCacheHit` and `noteCacheMiss` touch only the savings counters:
the usage totals (`summary`) and the per-provider breakdown are unchanged —
a cache hit is never billed. The savings counters change exactly as the
source writes them. -/
theorem noteCache_frame (s : LlmMeter) (tokensSaved : Nat) (usdSaved : ℚ) :
    (s.noteCacheHit tokensSaved usdSaved).summary = s.summary
      ∧ (s.noteCacheHit tokensSaved usdSaved).breakdown = s.breakdown
      ∧ (s.noteCacheHit tokensSaved usdSaved).savings
          = { s.savings with
              hitCount := s.savings.hitCount + 1,
              tokensSaved := s.savings.tokensSaved + tokensSaved,
              usdSaved := s.savings.usdSaved + usdSaved }
      ∧ s.noteCacheMiss.summary = s.summary
      ∧ s.noteCacheMiss.breakdown = s.breakdown
      ∧ s.noteCacheMiss.savings
          = { s.savings with missCount := s.savings.missCount + 1 } :=
  ⟨rfl, rfl, rfl, rfl, rfl, rfl⟩

/-! ## Claim C9 -/

/-- A usage event for a versioned model id that has no entry of its own in
the pricing table. -/
def c9VersionedEvent : MeterEvent := ⟨"gpt-4o-mini-2024-07-18", 10, 20, "openai"⟩

/-- C9 counterexample: literal absence from the pricing database is not the
throw condition of `record`. The model `"gpt-4o-mini-2024-07-18"` has no
entry in the pricing database (and none was added via `defineModel`), yet
`resolveModelPricingKey` strips the date suffix to the priced base id
`"gpt-4o-mini"`, so `record` throws nothing and mutates the ledger
(`calls` goes from 0 to 1). -/
theorem versioned_model_record_succeeds :
    lookupPricing PRICING_DB "gpt-4o-mini-2024-07-18" = none
      ∧ resolveModelPricingKey PRICING_DB "gpt-4o-mini-2024-07-18"
          = some "gpt-4o-mini"
      ∧ (LlmMeter.record PRICING_DB LlmMeter.empty c9VersionedEvent).2 = none
      ∧ (LlmMeter.record PRICING_DB LlmMeter.empty c9VersionedEvent).1.summary.calls = 1
      ∧ LlmMeter.empty.summary.calls = 0 :=
  ⟨by decide, by decide, rfl, rfl, rfl⟩

/-- C9 (amended): `record` with a model that `resolveModelPricingKey` cannot
resolve — no pricing entry under the id itself, nor after stripping a
trailing `-YYYY-MM-DD` or `-YYYYMMDD` date suffix, nor after progressively
stripping trailing `"-segment"` pieces — throws `UnknownModelError` before
mutating anything, and the ledger is unchanged on that error: the returned
state is exactly the pre-call state, so summary, breakdown and savings all
equal their values before the failed call (atomicity of `record` on pricing
failure). -/
theorem record_unknown_model_atomic (db : List (String × ModelPricing))
    (s : LlmMeter) (e : MeterEvent)
    (h : resolveModelPricingKey db e.model = none) :
    LlmMeter.record db s e = (s, some (.unknownModel e.model)) := by
  unfold LlmMeter.record estimateCostUsd pricingFor
  rw [h]

/-- A request for a model that no fallback can resolve. -/
def c9UnknownEvent : MeterEvent := ⟨"mystery-model-xyz", 10, 20, "openai"⟩

/-- C9 witness: recording `"mystery-model-xyz"` (unresolvable even through
the suffix-stripping fallback) against the shipped pricing table throws
`UnknownModelError` and leaves the fresh ledger untouched. -/
theorem record_unknown_model_atomic_witness :
    resolveModelPricingKey PRICING_DB "mystery-model-xyz" = none
      ∧ LlmMeter.record PRICING_DB LlmMeter.empty c9UnknownEvent
          = (LlmMeter.empty, some (.unknownModel "mystery-model-xyz")) :=
  ⟨by decide,
    record_unknown_model_atomic PRICING_DB LlmMeter.empty c9UnknownEvent (by decide)⟩

/-! ## Budget scope (`src/spend.ts`, `src/als.ts`)

`SpendLimit` captures the optional ceilings and the baseline snapshot taken
from the meter at construction. `currentUsage` is the live summary minus the
baseline, computed per-field and deliberately not clamped (a ledger reset
mid-scope surfaces as a negative delta), so the deltas are integers. -/

structure UsageDelta where
  tokens : Int
  inputTokens : Int
  outputTokens : Int
  costUsd : ℚ
  calls : Int
deriving DecidableEq

structure SpendLimit where
  maxCostUsd : Option ℚ
  maxTokens : Option Int
  initial : UsageCounter
deriving DecidableEq

/-- `new SpendLimit(opts)`: record the limits and the baseline snapshot of
the meter. -/
def SpendLimit.create (maxCostUsd : Option ℚ) (maxTokens : Option Int)
    (meter : LlmMeter) : SpendLimit :=
  { maxCostUsd := maxCostUsd, maxTokens := maxTokens, initial := meter.summary }

/-- `SpendLimit.currentUsage`: live summary minus the baseline, per field. -/
def SpendLimit.currentUsage (cap : SpendLimit) (cur : UsageCounter) : UsageDelta :=
  { tokens := (cur.tokens : Int) - (cap.initial.tokens : Int),
    inputTokens := (cur.inputTokens : Int) - (cap.initial.inputTokens : Int),
    outputTokens := (cur.outputTokens : Int) - (cap.initial.outputTokens : Int),
    costUsd := cur.costUsd - cap.initial.costUsd,
    calls := (cur.calls : Int) - (cap.initial.calls : Int) }

/-- The second guard of `checkLimits`:
`if (this.maxTokens !== undefined && usage.tokens > this.maxTokens) throw
new TokenCapExceeded(...)`. -/
def SpendLimit.checkTokenLimit (cap : SpendLimit) (usage : UsageDelta) :
    Option MeterError :=
  match cap.maxTokens with
  | some m => if m < usage.tokens then some (.tokenCapExceeded usage.tokens m) else none
  | none => none

/-- `SpendLimit.checkLimits()`: the cost guard runs first and throws
`CostLimitExceeded` (carrying the current and max cost); only when it does
not fire does the token guard run. A `none` result is a normal return. -/
def SpendLimit.checkLimits (cap : SpendLimit) (cur : UsageCounter) :
    Option MeterError :=
  let usage := cap.currentUsage cur
  match cap.maxCostUsd with
  | some m =>
    if m < usage.costUsd then some (.costLimitExceeded usage.costUsd m)
    else cap.checkTokenLimit usage
  | none => cap.checkTokenLimit usage

/-! ## Claim C5 -/

/-- Characterization of the token guard. -/
theorem checkTokenLimit_spec (cap : SpendLimit) (usage : UsageDelta) :
    (∀ mt, cap.maxTokens = some mt → mt < usage.tokens →
        cap.checkTokenLimit usage = some (.tokenCapExceeded usage.tokens mt))
      ∧ (∀ t m, cap.checkTokenLimit usage = some (.tokenCapExceeded t m) →
          cap.maxTokens = some m ∧ m < usage.tokens ∧ t = usage.tokens)
      ∧ (∀ c m, cap.checkTokenLimit usage ≠ some (.costLimitExceeded c m))
      ∧ (cap.checkTokenLimit usage = none ↔
          ∀ mt, cap.maxTokens = some mt → ¬ mt < usage.tokens) := by
  unfold SpendLimit.checkTokenLimit
  cases hmt : cap.maxTokens with
  | some mt =>
    dsimp only
    by_cases ht : mt < usage.tokens
    · rw [if_pos ht]
      refine ⟨?_, ?_, ?_, ?_⟩
      · intro mt2 hm _
        rw [Option.some.injEq] at hm
        subst hm
        rfl
      · intro t m h
        rw [Option.some.injEq, MeterError.tokenCapExceeded.injEq] at h
        obtain ⟨h1, h2⟩ := h
        subst h2
        exact ⟨rfl, ht, h1.symm⟩
      · intro c m h
        rw [Option.some.injEq] at h
        exact absurd h (by simp)
      · constructor
        · intro h
          exact absurd h (by simp)
        · intro hno
          exact absurd ht (hno mt rfl)
    · rw [if_neg ht]
      refine ⟨?_, ?_, ?_, ?_⟩
      · intro mt2 hm hlt
        rw [Option.some.injEq] at hm
        subst hm
        exact absurd hlt ht
      · intro t m h
        exact absurd h (by simp)
      · intro c m h
        exact absurd h (by simp)
      · refine ⟨fun _ => ?_, fun _ => rfl⟩
        intro mt2 hm
        rw [Option.some.injEq] at hm
        subst hm
        exact ht
  | none =>
    dsimp only
    refine ⟨?_, ?_, ?_, ?_⟩
    · intro mt2 hm _
      exact absurd hm (by simp)
    · intro t m h
      exact absurd h (by simp)
    · intro c m h
      exact absurd h (by simp)
    · refine ⟨fun _ => ?_, fun _ => rfl⟩
      intro mt2 hm
      exact absurd hm (by simp)

/-- C5: `checkLimits` fails with `CostLimitExceeded(currentCost, maxCost)` if
and only if `maxCostUsd` is set and `currentUsage.costUsd > maxCostUsd`;
otherwise it fails with `TokenCapExceeded(currentTokens, maxTokens)` if and
only if `maxTokens` is set and `currentUsage.tokens > maxTokens`; otherwise
it returns normally. When both thresholds are exceeded simultaneously the
cost error is raised, not the token error (the first conjunct holds with no
assumption on the token side). -/
theorem checkLimits_spec (cap : SpendLimit) (cur : UsageCounter) :
    (∀ m : ℚ, cap.maxCostUsd = some m → m < (cap.currentUsage cur).costUsd →
        cap.checkLimits cur
          = some (.costLimitExceeded (cap.currentUsage cur).costUsd m))
      ∧ (∀ c m, cap.checkLimits cur = some (.costLimitExceeded c m) →
          cap.maxCostUsd = some m ∧ m < (cap.currentUsage cur).costUsd
            ∧ c = (cap.currentUsage cur).costUsd)
      ∧ (∀ mt : Int, (∀ mc, cap.maxCostUsd = some mc →
            ¬ mc < (cap.currentUsage cur).costUsd) →
          cap.maxTokens = some mt → mt < (cap.currentUsage cur).tokens →
          cap.checkLimits cur
            = some (.tokenCapExceeded (cap.currentUsage cur).tokens mt))
      ∧ (∀ t m, cap.checkLimits cur = some (.tokenCapExceeded t m) →
          (∀ mc, cap.maxCostUsd = some mc →
            ¬ mc < (cap.currentUsage cur).costUsd)
            ∧ cap.maxTokens = some m ∧ m < (cap.currentUsage cur).tokens
            ∧ t = (cap.currentUsage cur).tokens)
      ∧ (cap.checkLimits cur = none ↔
          ((∀ mc, cap.maxCostUsd = some mc →
              ¬ mc < (cap.currentUsage cur).costUsd)
            ∧ (∀ mt, cap.maxTokens = some mt →
              ¬ mt < (cap.currentUsage cur).tokens))) := by
  obtain ⟨tok1, tok2, tok3, tok4⟩ := checkTokenLimit_spec cap (cap.currentUsage cur)
  refine ⟨?_, ?_, ?_, ?_, ?_⟩
  · intro m hm hlt
    unfold SpendLimit.checkLimits
    rw [hm]
    dsimp only
    rw [if_pos hlt]
  · intro c m h
    unfold SpendLimit.checkLimits at h
    cases hmc : cap.maxCostUsd with
    | some mc =>
      rw [hmc] at h
      dsimp only at h
      by_cases hc : mc < (cap.currentUsage cur).costUsd
      · rw [if_pos hc] at h
        rw [Option.some.injEq, MeterError.costLimitExceeded.injEq] at h
        obtain ⟨h1, h2⟩ := h
        subst h2
        exact ⟨rfl, hc, h1.symm⟩
      · rw [if_neg hc] at h
        exact absurd h (tok3 c m)
    | none =>
      rw [hmc] at h
      dsimp only at h
      exact absurd h (tok3 c m)
  · intro mt hno hmt hlt
    unfold SpendLimit.checkLimits
    cases hmc : cap.maxCostUsd with
    | some mc =>
      dsimp only
      rw [if_neg (hno mc hmc)]
      exact tok1 mt hmt hlt
    | none =>
      dsimp only
      exact tok1 mt hmt hlt
  · intro t m h
    unfold SpendLimit.checkLimits at h
    cases hmc : cap.maxCostUsd with
    | some mc =>
      rw [hmc] at h
      dsimp only at h
      by_cases hc : mc < (cap.currentUsage cur).costUsd
      · rw [if_pos hc] at h
        rw [Option.some.injEq] at h
        exact absurd h (by simp)
      · rw [if_neg hc] at h
        obtain ⟨h1, h2, h3⟩ := tok2 t m h
        refine ⟨?_, h1, h2, h3⟩
        intro mc2 hmc2
        rw [Option.some.injEq] at hmc2
        subst hmc2
        exact hc
    | none =>
      rw [hmc] at h
      dsimp only at h
      obtain ⟨h1, h2, h3⟩ := tok2 t m h
      refine ⟨?_, h1, h2, h3⟩
      intro mc2 hmc2
      exact absurd hmc2 (by simp)
  · constructor
    · intro h
      unfold SpendLimit.checkLimits at h
      cases hmc : cap.maxCostUsd with
      | some mc =>
        rw [hmc] at h
        dsimp only at h
        by_cases hc : mc < (cap.currentUsage cur).costUsd
        · rw [if_pos hc] at h
          exact absurd h (by simp)
        · rw [if_neg hc] at h
          refine ⟨?_, tok4.mp h⟩
          intro mc2 hmc2
          rw [Option.some.injEq] at hmc2
          subst hmc2
          exact hc
      | none =>
        rw [hmc] at h
        dsimp only at h
        refine ⟨?_, tok4.mp h⟩
        intro mc2 hmc2
        exact absurd hmc2 (by simp)
    · intro hpair
      obtain ⟨hnc, hnt⟩ := hpair
      unfold SpendLimit.checkLimits
      cases hmc : cap.maxCostUsd with
      | some mc =>
        dsimp only
        rw [if_neg (hnc mc hmc)]
        exact tok4.mpr hnt
      | none =>
        dsimp only
        exact tok4.mpr hnt

/-- A scope whose cost and token ceilings are both already exceeded. -/
def c5Cap : SpendLimit := ⟨some 1, some 10, .empty⟩

/-- A live summary of 100 tokens and 5 USD. -/
def c5Usage : UsageCounter := ⟨100, 60, 40, 5, 1⟩

/-- C5 witness: with `maxCostUsd = 1`, `maxTokens = 10`, current usage of
5 USD and 100 tokens (both limits exceeded), `checkLimits` raises the cost
error carrying the current and max cost. -/
theorem checkLimits_spec_witness :
    c5Cap.maxCostUsd = some 1
      ∧ (1 : ℚ) < (c5Cap.currentUsage c5Usage).costUsd
      ∧ c5Cap.checkLimits c5Usage
          = some (.costLimitExceeded ((c5Cap.currentUsage c5Usage).costUsd) 1) := by
  refine ⟨rfl, by norm_num [SpendLimit.currentUsage, c5Cap, c5Usage, UsageCounter.empty], ?_⟩
  exact (checkLimits_spec c5Cap c5Usage).1 1 rfl
    (by norm_num [SpendLimit.currentUsage, c5Cap, c5Usage, UsageCounter.empty])

/-! ## Claim C6 — `run` over the async-context model

`AsyncLocalStorage` guarantees that `storage.run(cap, fn)` makes `cap` the
store for the whole (possibly asynchronous) logical execution of `fn` and
restores the outer store afterwards on every exit path. The cooperative
single-threaded execution is embedded as a state monad whose state carries
the current-scope slot, the live meter summary that `checkLimits` reads, and
an instrumentation counter of `checkLimits` invocations. -/

structure ExecState where
  cur : Option SpendLimit
  usage : UsageCounter
  checks : Nat

/-- A computation in the embedded async model: state in, result and state
out. A body may read or write the meter and may run nested scopes. -/
def M (A : Type) : Type := ExecState → Except MeterError A × ExecState

def mPure {A : Type} (a : A) : M A := fun st => (.ok a, st)

def mBind {A B : Type} (m : M A) (k : A → M B) : M B := fun st =>
  match m st with
  | (.ok a, st1) => k a st1
  | (.error e, st1) => (.error e, st1)

/-- `getCurrentCapLike()` (`src/als.ts`): read the storage slot. -/
def getCurrentCapLikeM : M (Option SpendLimit) := fun st => (.ok st.cur, st)

/-- `this.checkLimits()` as an effect: throws the limit error, if any, and
bumps the instrumentation counter. -/
def checkLimitsM (cap : SpendLimit) : M Unit := fun st =>
  ((match cap.checkLimits st.usage with
    | some e => .error e
    | none => .ok ()), { st with checks := st.checks + 1 })

/-- `runWithCapLike(cap, fn)` (`src/als.ts`): `AsyncLocalStorage.run`
installs `cap` for the whole execution of the body and restores the outer
slot afterwards, on normal and exceptional exits alike. -/
def runWithCapLike {A : Type} (cap : SpendLimit) (body : M A) : M A := fun st =>
  let saved := st.cur
  let r := body { st with cur := some cap }
  (r.1, { r.2 with cur := saved })

/-- `SpendLimit.run(fn)` (`src/spend.ts`):
`runWithCapLike(this, async () => { const result = await fn(this);
this.checkLimits(); return result; })`. -/
def SpendLimit.run {A : Type} (cap : SpendLimit) (fn : SpendLimit → M A) : M A :=
  runWithCapLike cap
    (mBind (fn cap) (fun result => mBind (checkLimitsM cap) (fun _ => mPure result)))

/-- C6: `run(fn)` installs the scope for `fn`'s whole execution (`fn` runs on
the state whose current-scope slot holds `cap`), calls `checkLimits` exactly
once after `fn` completes successfully (the instrumentation counter grows by
exactly one beyond whatever `fn` itself did), and uninstalls the scope on
every exit path: when `fn` fails, the scope is still uninstalled, the counter
does not grow further (`checkLimits` is not re-run), and the original failure
propagates to `run`'s caller. -/
theorem run_spec {A : Type} (cap : SpendLimit) (fn : SpendLimit → M A)
    (st : ExecState) :
    ((cap.run fn st).2.cur = st.cur)
      ∧ (cap.run fn st =
          match fn cap { st with cur := some cap } with
          | (.error e, st1) => (.error e, { st1 with cur := st.cur })
          | (.ok r, st1) =>
            match cap.checkLimits st1.usage with
            | some e =>
              (.error e, { st1 with cur := st.cur, checks := st1.checks + 1 })
            | none =>
              (.ok r, { st1 with cur := st.cur, checks := st1.checks + 1 })) := by
  have h2 : cap.run fn st =
      match fn cap { st with cur := some cap } with
      | (.error e, st1) => (.error e, { st1 with cur := st.cur })
      | (.ok r, st1) =>
        match cap.checkLimits st1.usage with
        | some e =>
          (.error e, { st1 with cur := st.cur, checks := st1.checks + 1 })
        | none =>
          (.ok r, { st1 with cur := st.cur, checks := st1.checks + 1 }) := by
    unfold SpendLimit.run runWithCapLike mBind checkLimitsM mPure
    cases hfn : fn cap { st with cur := some cap } with
    | mk r st1 =>
      cases r with
      | error e => rfl
      | ok a =>
        dsimp only
        cases hcl : cap.checkLimits st1.usage with
        | none => rfl
        | some e => rfl
  refine ⟨?_, h2⟩
  rw [h2]
  cases hfn : fn cap { st with cur := some cap } with
  | mk r st1 =>
    cases r with
    | error e => rfl
    | ok a =>
      dsimp only
      cases hcl : cap.checkLimits st1.usage with
      | none => rfl
      | some e => rfl
